import Mathlib

/-!
Verification development for the TalkTime call-analytics pipeline
(src/app_talktime.py, src/app_talktime_v2.py, src/app_talktime_v3.py,
src/app_talktime_v3_6.py).

The Python sources are shallowly embedded below.  Cell values of the
uploaded table are modelled by an explicit sum type (a pandas NaN or None
is the missing marker), pandas Series become Lean lists, and every
partial operation returns an Option.  Python floats are modelled by
exact rationals in a canonical normalized fraction representation Frac
(every value the pipeline manipulates is an exact decimal or a ratio of
small integers, so no rounding behaviour is observable in the claims).
Text is manipulated as lists of characters so that every definition
reduces inside the kernel; String enters only at the boundary.
Each definition is translated from the named source function; a few
library routines that the sources call (Python float() on a string,
difflib.SequenceMatcher.ratio) are modelled at the granularity the
claims need, as documented on the respective definition.
-/

namespace TalkTime

/-- Exact rational numbers in normalized form (gcd-reduced numerator and
positive denominator), modelling the Python floats of the pipeline.
All constructors below produce normalized values, so structural equality
agrees with numeric equality. -/
structure Frac where
  n : Int
  d : Nat
deriving DecidableEq

/-- Normalized fraction n / d (d expected positive). -/
def fnorm (n : Int) (d : Nat) : Frac :=
  let g := Nat.gcd n.natAbs d
  if g = 0 then ⟨0, 1⟩ else ⟨Int.tdiv n (Int.ofNat g), d / g⟩

def fofInt (n : Int) : Frac := ⟨n, 1⟩

def fofNat (n : Nat) : Frac := ⟨Int.ofNat n, 1⟩

def fadd (a b : Frac) : Frac :=
  fnorm (a.n * (b.d : Int) + b.n * (a.d : Int)) (a.d * b.d)

def fmul (a b : Frac) : Frac :=
  fnorm (a.n * b.n) (a.d * b.d)

/-- Division; division by zero never occurs in the modelled pipeline
(every divisor is a positive count or a power of ten) and is mapped to
zero here. -/
def fdiv (a b : Frac) : Frac :=
  if b.n = 0 then ⟨0, 1⟩
  else fnorm (a.n * (b.d : Int) * Int.sign b.n) (a.d * b.n.natAbs)

def fle (a b : Frac) : Bool :=
  decide (a.n * (b.d : Int) ≤ b.n * (a.d : Int))

def flt (a b : Frac) : Bool :=
  decide (a.n * (b.d : Int) < b.n * (a.d : Int))

def fneg (a : Frac) : Frac := ⟨-a.n, a.d⟩

def fsum (l : List Frac) : Frac :=
  l.foldl fadd (fofNat 0)

/-- Model of one raw spreadsheet cell, as pandas hands it to the helper
functions: missing (NaN or None), a numeric value, a boolean, or text. -/
inductive CellValue where
  | missing
  | num (q : Frac)
  | boolean (b : Bool)
  | str (s : String)
deriving DecidableEq

/-- Python str.strip(): drop leading and trailing whitespace. -/
def trimL (cs : List Char) : List Char :=
  ((cs.dropWhile Char.isWhitespace).reverse.dropWhile Char.isWhitespace).reverse

/-- Python s.split(sep) for a one-character separator: empty pieces are
kept, and the empty string yields one empty piece. -/
def splitOnChar (sep : Char) : List Char → List (List Char)
  | [] => [[]]
  | c :: cs =>
    let rest := splitOnChar sep cs
    if c = sep then [] :: rest
    else
      match rest with
      | r :: rs => (c :: r) :: rs
      | [] => [[c]]

/-- All characters are decimal digits. -/
def allDigits (cs : List Char) : Bool :=
  cs.all Char.isDigit

/-- Numeric value of a digit string (most significant first). -/
def natOfDigits (cs : List Char) : Nat :=
  cs.foldl (fun a c => 10 * a + (c.toNat - 48)) 0

/-- Model of Python float(s) on a string, for the plain decimal literals
the duration pipeline deals in: optional surrounding whitespace, an
optional sign, digits with at most one decimal point (at least one digit
overall).  Exotic float literals (exponents, inf, nan, underscores) are
outside the model; every input exercised by the claims is a plain
decimal literal or fails to parse in both Python and this model. -/
def parseFloatL? (cs0 : List Char) : Option Frac :=
  let t := trimL cs0
  let neg : Bool := t.head? == some '-'
  let body := if t.head? == some '-' || t.head? == some '+' then t.tail else t
  match splitOnChar '.' body with
  | [w] =>
    if w.length != 0 && allDigits w then
      some (fofInt (if neg then -(natOfDigits w : Int) else (natOfDigits w : Int)))
    else none
  | [w, f] =>
    if (w.length != 0 || f.length != 0) && allDigits w && allDigits f then
      let k := f.length
      let mag : Int := Int.ofNat (natOfDigits w * 10 ^ k + natOfDigits f)
      some (fnorm (if neg then -mag else mag) (10 ^ k))
    else none
  | _ => none

/-- Sequencing of a list of optional values: some list iff every element
is some (models the Python list comprehension [float(p) for p in parts],
which raises, hence yields the missing marker, if any part fails). -/
def seqOpt {α : Type} : List (Option α) → Option (List α)
  | [] => some []
  | none :: _ => none
  | some a :: rest => (seqOpt rest).map (a :: ·)

/-- Text branch of to_seconds / _parse_duration_to_seconds (identical in
all four sources): strip, try a direct float parse, otherwise split on
the colon and accept exactly two numeric parts as M:S or exactly three
as H:M:S. -/
def toSecondsText (cs : List Char) : Option Frac :=
  let t := trimL cs
  match parseFloatL? t with
  | some q => some q
  | none =>
    match seqOpt ((splitOnChar ':' t).map parseFloatL?) with
    | none => none
    | some qs =>
      match qs with
      | [m, sec] => some (fadd (fmul m (fofNat 60)) sec)
      | [h, m, sec] => some (fadd (fadd (fmul h (fofNat 3600)) (fmul m (fofNat 60))) sec)
      | _ => none

/-- Embedding of to_seconds (app_talktime_v3_6.py lines 17-40; the same
function appears as _parse_duration_to_seconds in app_talktime.py lines
23-50 and as to_seconds in v2/v3): missing input stays missing, numeric
non-boolean input is cast to float, anything else is stringified (a
boolean prints as True or False) and sent through the text branch. -/
def to_seconds : CellValue → Option Frac
  | .missing => none
  | .num q => some q
  | .boolean b => toSecondsText (if b then "True".toList else "False".toList)
  | .str s => toSecondsText s.toList

example : to_seconds (.str "2:30") = some (fofNat 150) := by decide
example : to_seconds (.str "1:02:03") = some (fofNat 3723) := by decide
example : to_seconds (.str "abc") = none := by decide
example : to_seconds (.str "") = none := by decide
example : to_seconds (.str "-5") = some (fofInt (-5)) := by decide
example : to_seconds (.boolean true) = none := by decide
example : to_seconds (.boolean false) = none := by decide
example : to_seconds (.str "1.5") = some ⟨3, 2⟩ := by decide
example : to_seconds (.str " 0:30 ") = some (fofNat 30) := by decide
example : to_seconds (.str "1:2:3:4") = none := by decide
example : to_seconds (.num (fofNat 42)) = some (fofNat 42) := by decide
example : to_seconds .missing = none := by decide

/-- Embedding of norm_name (app_talktime_v3_6.py lines 106-118): a
missing value normalizes to the empty string; otherwise lowercase,
strip, keep alphanumeric characters, turn other whitespace into spaces,
drop the rest, and collapse whitespace runs.  The normalized name is
kept as a character list. -/
def norm_name (x : Option String) : List Char :=
  match x with
  | none => []
  | some s =>
    let kept := (trimL (s.toList.map Char.toLower)).filterMap
      (fun c =>
        if c.isAlphanum then some c
        else if c.isWhitespace then some ' '
        else none)
    let toks := (splitOnChar ' ' kept).filter (fun t => t.length != 0)
    List.intercalate [' '] toks

/-- Python substring containment needle in hay (contiguous). -/
def containsL (hay needle : List Char) : Bool :=
  hay.tails.any (fun suf => needle.isPrefixOf suf)

/-- Positions of a character inside b, ascending (the b2j table of
difflib.SequenceMatcher for one character). -/
def posOf (b : List Char) (c : Char) : List Nat :=
  (List.range b.length).filter (fun j => b.getD j ' ' == c)

/-- Lookup in the j2len association table of the SequenceMatcher inner
loop; absent keys mean zero. -/
def lookupJ (l : List (Nat × Nat)) (j : Nat) : Nat :=
  match l.find? (fun p => p.1 == j) with
  | some p => p.2
  | none => 0

/-- Inner loop of difflib SequenceMatcher.find_longest_match over the
positions js of one character of a in b: extends the diagonal runs
recorded in j2len and updates the best block, strictly-greater
comparison reproducing the earliest-i earliest-j tie-break. -/
def flmInner (j2len : List (Nat × Nat)) (i : Nat) (js : List Nat)
    (st : Nat × Nat × Nat) : List (Nat × Nat) × (Nat × Nat × Nat) :=
  js.foldl
    (fun acc j =>
      let prev := if j = 0 then 0 else lookupJ j2len (j - 1)
      let k := prev + 1
      let tbl := (j, k) :: acc.1
      if k > acc.2.2.2 then (tbl, (i + 1 - k, j + 1 - k, k)) else (tbl, acc.2))
    ([], st)

/-- Model of difflib SequenceMatcher.find_longest_match on the window
[alo, ahi) x [blo, bhi), for inputs shorter than 200 characters (below
the autojunk threshold, so no character is junk or popular and the
final junk-extension loops of the library are no-ops). -/
def findLongestMatch (a b : List Char) (alo ahi blo bhi : Nat) : Nat × Nat × Nat :=
  let r := (List.range' alo (ahi - alo)).foldl
    (fun (acc : List (Nat × Nat) × (Nat × Nat × Nat)) i =>
      let js := (posOf b (a.getD i ' ')).filter (fun j => decide (blo ≤ j) && decide (j < bhi))
      flmInner acc.1 i js acc.2)
    ([], (alo, blo, 0))
  r.2

/-- Total size of the matching blocks of difflib SequenceMatcher
(get_matching_blocks): recursively take the longest match of a window
and recurse on the two flanking windows.  The fuel argument dominates
the recursion depth; each recursive call strictly shrinks the window, so
any fuel of at least the summed window sizes computes the true total. -/
def matchTotal (a b : List Char) : Nat → Nat × Nat × Nat × Nat → Nat
  | 0, _ => 0
  | fuel + 1, (alo, ahi, blo, bhi) =>
    let m := findLongestMatch a b alo ahi blo bhi
    let i := m.1
    let j := m.2.1
    let k := m.2.2
    if k = 0 then 0
    else k + matchTotal a b fuel (alo, i, blo, j) + matchTotal a b fuel (i + k, ahi, j + k, bhi)

/-- Model of difflib SequenceMatcher(None, a, b).ratio(): twice the
total matching-block size over the summed lengths; the library returns
1.0 for two empty sequences. -/
def smRatio (a b : List Char) : Frac :=
  if a.length + b.length = 0 then fofNat 1
  else fnorm (Int.ofNat (2 * matchTotal a b (a.length + b.length + 1) (0, a.length, 0, b.length)))
    (a.length + b.length)

/-- Similarity threshold ratio_cut=0.85 of fuzzy_match_any. -/
def ratio_cut : Frac := fnorm 85 100

/-- Embedding of fuzzy_match_any (app_talktime_v3_6.py lines 120-135):
the normalized name matches a list of normalized targets if it is
nonempty and, for some nonempty target, the target is a substring of
the name or vice versa, or some whitespace token of the target is a
substring of the name, or the similarity ratio reaches ratio_cut. -/
def fuzzy_match_any (name : Option String) (targetsNorm : List (List Char)) : Bool :=
  let n := norm_name name
  if n.length = 0 then false
  else targetsNorm.any (fun t =>
    if t.length = 0 then false
    else
      containsL n t || containsL t n ||
      ((splitOnChar ' ' t).filter (fun tok => tok.length != 0)).any (fun tok => containsL n tok) ||
      fle ratio_cut (smRatio n t))

/-- NameMatcher.is_member of the spec: rosters are normalized once at
startup (B2C_TARGETS = [norm_name(x) for x in B2C_TARGETS_RAW] in
app_talktime_v3_6.py lines 159-160) and membership is fuzzy_match_any
against the normalized roster. -/
def is_member (name : Option String) (roster : List String) : Bool :=
  fuzzy_match_any name (roster.map (fun r => norm_name (some r)))

/-- Modelled from the claim wording of C4, for comparison with the
source definition is_member: identical except for the token clause,
which here requires a roster-entry token to appear as a whole
whitespace-delimited token of the name, where the source only requires
it to be a substring of the normalized name. -/
def isMemberClaimed (name : Option String) (roster : List String) : Bool :=
  let n := norm_name name
  if n.length = 0 then false
  else (roster.map (fun r => norm_name (some r))).any (fun t =>
    if t.length = 0 then false
    else
      containsL n t || containsL t n ||
      ((splitOnChar ' ' t).filter (fun tok => tok.length != 0)).any
        (fun tok => ((splitOnChar ' ' n).filter (fun x => x.length != 0)).contains tok) ||
      fle ratio_cut (smRatio n t))

/-- The fixed B2C roster of app_talktime_v3_6.py lines 140-154. -/
def B2C_TARGETS_RAW : List String :=
  ["Kamaldeep singh", "Ria Arora", "ayushman jetlearn", "Shujaat Shafqat",
   "Unmesh Kamble", "Ziyaulhaq Badr", "Visakha", "Jay Nayak", "Ankush Kumar",
   "Fuzail Saudagar", "Aniket Srivastava", "Shahbaz Ali", "Vikas Jha"]

/-- The fixed MT roster of app_talktime_v3_6.py lines 155-157. -/
def MTTEAM_TARGETS_RAW : List String := ["AYUSHMAN"]

def B2C_TARGETS : List (List Char) := B2C_TARGETS_RAW.map (fun s => norm_name (some s))

def MTTEAM_TARGETS : List (List Char) := MTTEAM_TARGETS_RAW.map (fun s => norm_name (some s))

example : norm_name (some " Ayushman  Jetlearn! ") = "ayushman jetlearn".toList := by decide
example : is_member (some "Ayushman Jetlearn") ["ayushman jetlearn"] = true := by decide
example : is_member (some "Ayushman J") ["ayushman jetlearn"] = true := by decide
example : is_member (some "") ["ayushman jetlearn"] = false := by decide
example : is_member none ["ayushman jetlearn"] = false := by decide
example : smRatio "bart".toList "ar xyzzzz".toList = ⟨4, 13⟩ := by decide
example : smRatio "abcd".toList "bcde".toList = ⟨3, 4⟩ := by decide
example : smRatio "ayushman".toList "ayushmen".toList = ⟨7, 8⟩ := by decide
example : is_member (some "bart") ["ar xyzzzz"] = true := by decide
example : isMemberClaimed (some "bart") ["ar xyzzzz"] = false := by decide
example : fuzzy_match_any (some "AYUSHMAN") MTTEAM_TARGETS = true := by decide

/-- One record of the uploaded table after column cleaning: the four
categorical columns (Caller, Country Name, Call Type, Call Status), the
raw duration cell and the derived local hour (missing when the Date and
Time columns do not produce a valid instant). -/
structure Rec where
  agent : Option String
  country : Option String
  callType : Option String
  callStatus : Option String
  durRaw : CellValue
  hour : Option Nat
deriving DecidableEq

/-- Derived _duration_sec column: to_seconds applied to the raw cell. -/
def durationSec (r : Rec) : Option Frac := to_seconds r.durRaw

/-- Team mask of app_talktime_v3_6.py lines 258-278: the base selection
is everything (All agents) or the fuzzy B2C match; the additive MT
checkbox ORs in the MT roster match; include_missing ORs in records
whose agent is missing. -/
def teamMask (baseAll addMt includeMissing : Bool)
    (b2cNorm mtNorm : List (List Char)) (r : Rec) : Bool :=
  (if baseAll then true else fuzzy_match_any r.agent b2cNorm)
  || (addMt && fuzzy_match_any r.agent mtNorm)
  || (includeMissing && r.agent.isNone)

/-- Row filtering by the team mask (df_f = df_f[team_mask], line 280). -/
def teamFilter (baseAll addMt includeMissing : Bool)
    (b2cNorm mtNorm : List (List Char)) (rows : List Rec) : List Rec :=
  rows.filter (teamMask baseAll addMt includeMissing b2cNorm mtNorm)

/-- Pandas astype(str) on one cell: a missing value stringifies to
"nan". -/
def strOfCell (x : Option String) : String :=
  match x with
  | some v => v
  | none => "nan"

/-- Embedding of _apply_filter (app_talktime_v3_6.py lines 283-291): an
absent column or absent selection leaves the frame unchanged, an empty
selection leaves the frame unchanged, otherwise keep rows whose
stringified value is selected, plus the missing-valued rows when
include_missing is on. -/
def _apply_filter (includeMissing : Bool) (rows : List Rec)
    (col : Rec → Option String) (selections : Option (List String)) : List Rec :=
  match selections with
  | none => rows
  | some sel =>
    if sel.length = 0 then rows
    else if includeMissing then
      rows.filter (fun r => sel.contains (strOfCell (col r)) || (col r).isNone)
    else
      rows.filter (fun r => sel.contains (strOfCell (col r)))

/-- Duration-threshold mode filter (app_talktime_v3_6.py lines 299-302,
app_talktime.py lines 195-202): keep rows with _duration_sec >=
threshold; a missing duration compares False in pandas and is dropped. -/
def thresholdFilter (threshold : Frac) (rows : List Rec) : List Rec :=
  rows.filter (fun r =>
    match durationSec r with
    | some d => fle threshold d
    | none => false)

/-- Agent-filtering pipeline of app_talktime_v3_6.py lines 258-293 in
source order: team mask first, then the categorical Caller filter. -/
def agentPipeline (baseAll addMt includeMissing : Bool)
    (b2cNorm mtNorm : List (List Char)) (sel : Option (List String))
    (rows : List Rec) : List Rec :=
  _apply_filter includeMissing
    (teamFilter baseAll addMt includeMissing b2cNorm mtNorm rows)
    (fun r => r.agent) sel

/-- Insertion into a list sorted by the boolean relation le. -/
def insertByB {α : Type} (le : α → α → Bool) (x : α) : List α → List α
  | [] => [x]
  | y :: ys => if le x y then x :: y :: ys else y :: insertByB le x ys

/-- Insertion sort by the boolean relation le (used for the pandas
sort_values calls and for the median). -/
def sortByB {α : Type} (le : α → α → Bool) : List α → List α
  | [] => []
  | x :: xs => insertByB le x (sortByB le xs)

/-- Pandas median of a list of values: average of the middle one or two
of the sorted list; empty input has no median. -/
def medianF (l : List Frac) : Option Frac :=
  let s := sortByB fle l
  let n := s.length
  if n = 0 then none
  else if n % 2 = 1 then some (s.getD (n / 2) (fofNat 0))
  else some (fdiv (fadd (s.getD (n / 2 - 1) (fofNat 0)) (s.getD (n / 2) (fofNat 0))) (fofNat 2))

/-- One output row of agg_summary: the group key and the four aggregates
named Total Calls, Total Duration (sec), Avg Duration (sec), Median
Duration (sec) in the source. -/
structure AggRow (κ : Type) where
  key : κ
  count : Nat
  total : Frac
  mean : Option Frac
  median : Option Frac
deriving DecidableEq

/-- Pandas [count, sum, mean, median] aggregation of one group of
duration values: count and sum skip missing values (sum of an all-missing
group is 0.0), mean and median of an all-missing group are missing. -/
def groupStats {κ : Type} (k : κ) (vals : List (Option Frac)) : AggRow κ :=
  let xs := vals.filterMap id
  { key := k
    count := xs.length
    total := fsum xs
    mean := if xs.length = 0 then none else some (fdiv (fsum xs) (fofNat xs.length))
    median := medianF xs }

/-- Grouping core of agg_summary (app_talktime_v3_6.py lines 78-91) /
aggregate (app_talktime_v2.py lines 102-111): group rows, given as
(dimension key, duration) pairs, by key with dropna=False (a missing
key is its own group), and aggregate each group. -/
def aggBy {κ : Type} [DecidableEq κ] (rows : List (κ × Option Frac)) : List (AggRow κ) :=
  (rows.map Prod.fst).dedup.map
    (fun k => groupStats k ((rows.filter (fun p => decide (p.1 = k))).map Prod.snd))

/-- Sort order of agg_summary: Total Calls descending, then Total
Duration descending. -/
def aggLe {κ : Type} (x y : AggRow κ) : Bool :=
  decide (y.count < x.count) || (decide (x.count = y.count) && fle y.total x.total)

/-- Embedding of agg_summary (app_talktime_v3_6.py lines 78-91): group
by the dimensions with dropna=False, aggregate count, sum, mean and
median of the duration field, and sort by count then sum descending. -/
def agg_summary {κ : Type} [DecidableEq κ] (rows : List (κ × Option Frac)) : List (AggRow κ) :=
  sortByB aggLe (aggBy rows)

/-- Attempts-by-hour view (app_talktime_v3_6.py lines 370-374,
app_talktime.py lines 254-261): drop rows without a parsed hour from
the date- and categorical-filtered set, group by hour, count rows. -/
def attemptsByHour (rows : List Rec) : List (Nat × Nat) :=
  let hs := rows.filterMap (fun r => r.hour)
  hs.dedup.map (fun h => (h, hs.countP (fun x => decide (x = h))))

/-- Total number of attempts reported across all hour buckets. -/
def attemptsTotal (rows : List Rec) : Nat :=
  ((attemptsByHour rows).map Prod.snd).sum

/-- Case-insensitive header lookup modelling the dict comprehension
lower = (c.lower(): c for c in df.columns) of _coalesce_column: a later
header with the same lowercase form overwrites an earlier one. -/
def lowerDict (headers : List String) (cand : String) : Option String :=
  headers.reverse.find? (fun h => h.toList.map Char.toLower == cand.toList.map Char.toLower)

/-- Embedding of _coalesce_column (app_talktime.py lines 12-21): first
candidate present in the headers by exact match, else the first
candidate with a case-insensitive match, returning the matching header
name; None when nothing matches. -/
def _coalesce_column (headers candidates : List String) : Option String :=
  match candidates.find? (fun c => headers.contains c) with
  | some c => some c
  | none =>
    match candidates.find? (fun c => (lowerDict headers c).isSome) with
    | some c => lowerDict headers c
    | none => none

/-- Role resolution of app_talktime.py lines 111-114 (agent_col = map_agent
or _coalesce_column(...)): a non-empty explicit override is used as-is,
whether or not it occurs among the headers; only an empty override falls
back to the alias search. -/
def resolveRole (override : String) (headers candidates : List String) : Option String :=
  if override != "" then some override else _coalesce_column headers candidates

/-- Modelled from the claim wording of C7, for comparison with the
source definition resolveRole: the override is used only when it is
present in the header set as an exact match. -/
def resolveRoleClaimed (override : String) (headers candidates : List String) : Option String :=
  if override != "" && headers.contains override then some override
  else _coalesce_column headers candidates

/-- Number of parse successes of a column (the notna().sum() of
parse_date_best). -/
def countSome {β : Type} (l : List (Option β)) : Nat :=
  (l.filter (fun x => x.isSome)).length

/-- Number of parse failures of a column. -/
def countNone {β : Type} (l : List (Option β)) : Nat :=
  (l.filter (fun x => x.isNone)).length

/-- Embedding of parse_date_best (app_talktime_v3_6.py lines 42-45):
parse the whole column under the day-first and the month-first pandas
interpretation, abstracted here as the two per-value parsers p1 and p2,
and keep the day-first result when its success count is at least the
month-first success count, the month-first result otherwise. -/
def parse_date_best {α β : Type} (p1 p2 : α → Option β) (col : List α) : List (Option β) :=
  let d1 := col.map p1
  let d2 := col.map p2
  if countSome d2 ≤ countSome d1 then d1 else d2

/-- The end-to-end scenario rows of the spec (section 8): two calls by
agent A of 60 and 30 seconds and one call by agent B of 120 seconds, all
on the same date; the schema has no Time column, so no local hour is
derived. -/
def recA1 : Rec :=
  { agent := some "A", country := some "IN", callType := none, callStatus := none,
    durRaw := .str "1:00", hour := none }

def recA2 : Rec :=
  { agent := some "A", country := some "IN", callType := none, callStatus := none,
    durRaw := .str "0:30", hour := none }

def recB : Rec :=
  { agent := some "B", country := some "US", callType := none, callStatus := none,
    durRaw := .str "2:00", hour := none }

def scenarioRows : List Rec := [recA1, recA2, recB]

example : durationSec recA1 = some (fofNat 60) := by decide
example : thresholdFilter (fofNat 60) scenarioRows = [recA1, recB] := by decide
example :
    agg_summary ((thresholdFilter (fofNat 60) scenarioRows).map (fun r => (r.agent, durationSec r))) =
      [{ key := some "B", count := 1, total := fofNat 120, mean := some (fofNat 120),
         median := some (fofNat 120) },
       { key := some "A", count := 1, total := fofNat 60, mean := some (fofNat 60),
         median := some (fofNat 60) }] := by decide
example : attemptsTotal scenarioRows = 0 := by decide
example : resolveRole "NotAColumn" ["Duration"] ["Call Duration", "Duration"] = some "NotAColumn" := by
  decide
example : resolveRoleClaimed "NotAColumn" ["Duration"] ["Call Duration", "Duration"] = some "Duration" := by
  decide
example : _coalesce_column ["x", "CALL DURATION"] ["Call Duration", "Duration"] = some "CALL DURATION" := by
  decide
example : parse_date_best (fun n => some n) (fun n => some (n + 1)) [0] = [some 0] := by decide

theorem insertByB_perm {α : Type} (le : α → α → Bool) (x : α) (l : List α) :
    List.Perm (insertByB le x l) (x :: l) := by
  induction l with
  | nil => exact List.Perm.refl _
  | cons y ys ih =>
    simp only [insertByB]
    by_cases h : le x y = true
    · rw [if_pos h]
    · rw [if_neg h]
      exact (ih.cons y).trans (List.Perm.swap x y ys)

theorem sortByB_perm {α : Type} (le : α → α → Bool) (l : List α) :
    List.Perm (sortByB le l) l := by
  induction l with
  | nil => exact List.Perm.refl _
  | cons x xs ih => exact (insertByB_perm le x (sortByB le xs)).trans (ih.cons x)

theorem sum_map_add_nat {κ : Type} (f g : κ → Nat) (keys : List κ) :
    (keys.map (fun k => f k + g k)).sum = (keys.map f).sum + (keys.map g).sum := by
  induction keys with
  | nil => rfl
  | cons k ks ih => simp [ih]; omega

theorem sum_indicator_one {κ : Type} [DecidableEq κ] (a : κ) (keys : List κ)
    (hnd : keys.Nodup) (ha : a ∈ keys) :
    (keys.map (fun k => if a = k then 1 else 0)).sum = 1 := by
  induction keys with
  | nil => cases ha
  | cons k ks ih =>
    rcases List.nodup_cons.mp hnd with ⟨hk, hnd2⟩
    by_cases h : a = k
    · subst h
      have hz : ∀ x ∈ ks, (if a = x then 1 else 0) = 0 := by
        intro x hx
        have : a ≠ x := fun he => hk (he ▸ hx)
        simp [this]
      simp [List.map_congr_left hz]
    · have ha2 : a ∈ ks := by
        rcases List.mem_cons.mp ha with h1 | h1
        · exact absurd h1 h
        · exact h1
      simp [h, ih hnd2 ha2]

theorem sum_countP_keys {κ : Type} [DecidableEq κ] (keys : List κ) (hnd : keys.Nodup)
    (l : List κ) (hsub : ∀ a ∈ l, a ∈ keys) :
    (keys.map (fun k => l.countP (fun x => decide (x = k)))).sum = l.length := by
  induction l with
  | nil => simp
  | cons a l ih =>
    have hstep :
        (keys.map (fun k => (a :: l).countP (fun x => decide (x = k)))).sum =
          (keys.map (fun k => l.countP (fun x => decide (x = k)) + if a = k then 1 else 0)).sum := by
      apply congrArg
      apply List.map_congr_left
      intro k _
      by_cases h : a = k <;> simp [List.countP_cons, h]
    rw [hstep, sum_map_add_nat,
      ih (fun x hx => hsub x (List.mem_cons_of_mem a hx)),
      sum_indicator_one a keys hnd (hsub a (List.mem_cons_self a l))]
    simp

theorem length_filterMap_eq {α β : Type} (f : α → Option β) (l : List α) :
    (l.filterMap f).length = (l.filter (fun a => (f a).isSome)).length := by
  induction l with
  | nil => rfl
  | cons a l ih => cases h : f a <;> simp [List.filterMap_cons, List.filter_cons, h, ih]

theorem countSome_add_countNone {β : Type} (l : List (Option β)) :
    countSome l + countNone l = l.length := by
  induction l with
  | nil => rfl
  | cons a l ih =>
    cases a <;> simp [countSome, countNone, List.filter_cons] at ih ⊢ <;> omega

theorem seqOpt_eq_some_iff {α : Type} (l : List (Option α)) (xs : List α) :
    seqOpt l = some xs ↔ l = xs.map some := by
  induction l generalizing xs with
  | nil =>
    cases xs <;> simp [seqOpt]
  | cons o l ih =>
    cases o with
    | none => cases xs <;> simp [seqOpt]
    | some a =>
      cases xs with
      | nil => simp [seqOpt, Option.map_eq_some']
      | cons x xs =>
        simp only [seqOpt, List.map_cons, List.cons.injEq, Option.map_eq_some',
          Option.some.injEq]
        constructor
        · rintro ⟨ys, hys, rfl, rfl⟩
          exact ⟨rfl, (ih _).mp hys⟩
        · rintro ⟨rfl, h2⟩
          exact ⟨xs, (ih _).mpr h2, rfl, rfl⟩

theorem filter_sublist_mono {α : Type} (p q : α → Bool)
    (h : ∀ a, p a = true → q a = true) (l : List α) :
    List.Sublist (l.filter p) (l.filter q) := by
  induction l with
  | nil => simp
  | cons a l ih =>
    by_cases hp : p a = true
    · simp [List.filter_cons, hp, h a hp]
      exact ih
    · simp only [List.filter_cons, hp, ite_false, Bool.false_eq_true]
      by_cases hq : q a = true
      · simp only [hq, ite_true]
        exact ih.cons a
      · simp only [hq, ite_false, Bool.false_eq_true]
        exact ih

theorem toSecondsText_some_iff (cs : List Char) (v : Frac) :
    toSecondsText cs = some v ↔
      (parseFloatL? (trimL cs) = some v
       ∨ (parseFloatL? (trimL cs) = none
          ∧ ∃ m sec, (splitOnChar ':' (trimL cs)).map parseFloatL? = [some m, some sec]
              ∧ v = fadd (fmul m (fofNat 60)) sec)
       ∨ (parseFloatL? (trimL cs) = none
          ∧ ∃ h m sec,
              (splitOnChar ':' (trimL cs)).map parseFloatL? = [some h, some m, some sec]
              ∧ v = fadd (fadd (fmul h (fofNat 3600)) (fmul m (fofNat 60))) sec)) := by
  cases hf : parseFloatL? (trimL cs) with
  | some q => simp [toSecondsText, hf]
  | none =>
    simp only [toSecondsText, hf]
    cases hs : seqOpt ((splitOnChar ':' (trimL cs)).map parseFloatL?) with
    | none =>
      constructor
      · intro h; cases h
      · rintro (h | ⟨-, m, sec, hmap, -⟩ | ⟨-, h3, m, sec, hmap, -⟩)
        · cases h
        · have : seqOpt ((splitOnChar ':' (trimL cs)).map parseFloatL?) = some [m, sec] :=
            (seqOpt_eq_some_iff _ _).mpr (by simpa using hmap)
          rw [hs] at this
          cases this
        · have : seqOpt ((splitOnChar ':' (trimL cs)).map parseFloatL?) = some [h3, m, sec] :=
            (seqOpt_eq_some_iff _ _).mpr (by simpa using hmap)
          rw [hs] at this
          cases this
    | some qs =>
      have hL : (splitOnChar ':' (trimL cs)).map parseFloatL? = qs.map some :=
        (seqOpt_eq_some_iff _ _).mp hs
      rw [hL]
      rcases qs with _ | ⟨a, _ | ⟨b, _ | ⟨c, _ | ⟨d, rest⟩⟩⟩⟩
      · simp
      · simp
      · simp
        constructor
        · intro h
          exact ⟨a, b, ⟨rfl, rfl⟩, h.symm⟩
        · rintro ⟨m, sec, ⟨rfl, rfl⟩, h⟩
          exact h.symm
      · simp
        constructor
        · intro h
          exact ⟨a, b, c, ⟨rfl, rfl, rfl⟩, h.symm⟩
        · rintro ⟨x, y, z, ⟨rfl, rfl, rfl⟩, h⟩
          exact h.symm
      · simp

/-- C3: DurationParser.parse returns the numeric value for numeric
non-boolean input, the missing marker for missing input and for
booleans (which are stringified and fail to parse as text), and for
text first tries a direct float parse, otherwise splits on the colon
and accepts exactly two numeric parts as M:S mapped to M*60+S or
exactly three numeric parts as H:M:S mapped to H*3600+M*60+S, with any
other shape yielding the missing marker; the quoted concrete examples
evaluate accordingly. -/
theorem C3_duration_parse :
    (∀ q : Frac, to_seconds (.num q) = some q)
    ∧ to_seconds .missing = none
    ∧ (∀ b : Bool, to_seconds (.boolean b) = none)
    ∧ (∀ (s : String) (v : Frac),
        to_seconds (.str s) = some v ↔
          (parseFloatL? (trimL s.toList) = some v
           ∨ (parseFloatL? (trimL s.toList) = none
              ∧ ∃ m sec, (splitOnChar ':' (trimL s.toList)).map parseFloatL? = [some m, some sec]
                  ∧ v = fadd (fmul m (fofNat 60)) sec)
           ∨ (parseFloatL? (trimL s.toList) = none
              ∧ ∃ h m sec,
                  (splitOnChar ':' (trimL s.toList)).map parseFloatL? = [some h, some m, some sec]
                  ∧ v = fadd (fadd (fmul h (fofNat 3600)) (fmul m (fofNat 60))) sec)))
    ∧ to_seconds (.str "2:30") = some (fofNat 150)
    ∧ to_seconds (.str "1:02:03") = some (fofNat 3723)
    ∧ to_seconds (.str "abc") = none
    ∧ to_seconds (.str "") = none
    ∧ to_seconds (.str "-5") = some (fofInt (-5)) := by
  refine ⟨fun q => rfl, rfl, by decide, ?_, by decide, by decide, by decide, by decide, by decide⟩
  intro s v
  exact toSecondsText_some_iff s.toList v

/-- C2 counterexample: the spec invariant that duration_seconds is
never negative fails on the code: the duration parser passes the
negative numeric string -5 through as -5.0, which is below zero. -/
theorem C2_neg_counterexample :
    to_seconds (.str "-5") = some (fofInt (-5)) ∧ flt (fofInt (-5)) (fofNat 0) = true := by
  exact ⟨by decide, by decide⟩

/-- C2 (amended): duration_seconds can be negative (negative numeric
input passes through unclamped, witness -5); the failure half of the
claim holds: whenever the text neither parses as a float nor splits
into exactly two or three numeric colon parts, the parser returns the
missing marker, never zero. -/
theorem C2_missing_amended :
    to_seconds (.str "-5") = some (fofInt (-5))
    ∧ (∀ s : String,
        parseFloatL? (trimL s.toList) = none →
        (seqOpt ((splitOnChar ':' (trimL s.toList)).map parseFloatL?) = none
         ∨ ∀ qs, seqOpt ((splitOnChar ':' (trimL s.toList)).map parseFloatL?) = some qs →
             qs.length ≠ 2 ∧ qs.length ≠ 3) →
        to_seconds (.str s) = none) := by
  refine ⟨by decide, ?_⟩
  intro s hf hshape
  show toSecondsText s.toList = none
  simp only [toSecondsText, hf]
  cases hs : seqOpt ((splitOnChar ':' (trimL s.toList)).map parseFloatL?) with
  | none => rfl
  | some qs =>
    rcases hshape with h | h
    · rw [hs] at h; cases h
    · rcases h qs hs with ⟨h2, h3⟩
      rcases qs with _ | ⟨a, _ | ⟨b, _ | ⟨c, _ | ⟨d, rest⟩⟩⟩⟩
      · rfl
      · rfl
      · exact absurd rfl h2
      · exact absurd rfl h3
      · rfl

/-- C2 witness: the amended theorem applied to the unparseable text
abc, whose failure indeed yields the missing marker. -/
theorem C2_missing_witness : to_seconds (.str "abc") = none :=
  C2_missing_amended.2 "abc" (by decide) (Or.inl (by decide))

/-- C10: an empty or absent categorical selection leaves the record set
unchanged for each of the four dimensions (agent, country, call type,
call status) under either include_missing policy: an empty selection is
treated as no constraint, not as match-nothing. -/
theorem C10_empty_selection (im : Bool) (rows : List Rec) :
    _apply_filter im rows (fun r => r.agent) (some []) = rows
    ∧ _apply_filter im rows (fun r => r.agent) none = rows
    ∧ _apply_filter im rows (fun r => r.country) (some []) = rows
    ∧ _apply_filter im rows (fun r => r.callType) (some []) = rows
    ∧ _apply_filter im rows (fun r => r.callStatus) (some []) = rows := by
  exact ⟨rfl, rfl, rfl, rfl, rfl⟩

/-- C7 counterexample: a supplied override that is absent from the
header set is still used by the code (agent_col = map_agent or
coalesce), while the claim says an absent override falls back to the
alias search: the two resolution rules disagree on this input. -/
theorem C7_resolver_counterexample :
    resolveRole "NotAColumn" ["Duration"] ["Call Duration", "Duration"] = some "NotAColumn"
    ∧ resolveRoleClaimed "NotAColumn" ["Duration"] ["Call Duration", "Duration"] = some "Duration"
    ∧ (["Duration"] : List String).contains "NotAColumn" = false := by
  exact ⟨by decide, by decide, by decide⟩

/-- C7 (amended): a non-empty override is used unconditionally, present
in the headers or not; an empty override falls back to the alias
search, which tries the ordered alias list exactly first (the first
alias contained in the headers wins), then case-insensitively (the
result is then a header whose lowercase form equals some alias
lowercase form), and resolves to unresolved when no alias matches
either way. -/
theorem C7_resolver_amended :
    (∀ (o : String) (headers cands : List String),
        o ≠ "" → resolveRole o headers cands = some o)
    ∧ (∀ headers cands : List String,
        resolveRole "" headers cands = _coalesce_column headers cands)
    ∧ (∀ (headers cands : List String) (c : String),
        cands.find? (fun x => headers.contains x) = some c →
        _coalesce_column headers cands = some c)
    ∧ (∀ (headers cands : List String) (h : String),
        _coalesce_column headers cands = some h → h ∈ headers)
    ∧ (∀ headers cands : List String,
        (∀ c ∈ cands, headers.contains c = false) →
        (∀ c ∈ cands, lowerDict headers c = none) →
        _coalesce_column headers cands = none) := by
  refine ⟨?_, ?_, ?_, ?_, ?_⟩
  · intro o headers cands ho
    have hb : (o != "") = true := bne_iff_ne.mpr ho
    simp [resolveRole, hb]
  · intro headers cands
    simp [resolveRole]
  · intro headers cands c hfind
    unfold _coalesce_column
    rw [hfind]
  · intro headers cands h hres
    unfold _coalesce_column at hres
    cases hfind : cands.find? (fun c => headers.contains c) with
    | some c =>
      rw [hfind] at hres
      have hch : c = h := by simpa using hres
      subst hch
      have hc : headers.contains c = true := List.find?_some hfind
      simpa using hc
    | none =>
      rw [hfind] at hres
      cases hfind2 : cands.find? (fun c => (lowerDict headers c).isSome) with
      | none => rw [hfind2] at hres; cases hres
      | some c =>
        rw [hfind2] at hres
        have hres2 : (headers.reverse).find?
            (fun x => x.toList.map Char.toLower == c.toList.map Char.toLower) = some h := hres
        have : h ∈ headers.reverse := List.mem_of_find?_eq_some hres2
        exact List.mem_reverse.mp this
  · intro headers cands hex hci
    have h1 : cands.find? (fun c => headers.contains c) = none :=
      List.find?_eq_none.mpr (fun x hx => by rw [hex x hx]; simp)
    have h2 : cands.find? (fun c => (lowerDict headers c).isSome) = none :=
      List.find?_eq_none.mpr (fun x hx => by rw [hci x hx]; simp)
    unfold _coalesce_column
    rw [h1, h2]

/-- C7 witness: the amended theorem applied to a concrete non-empty
override, which resolves to itself. -/
theorem C7_resolver_witness : resolveRole "Owner" ["Agent"] ["Agent"] = some "Owner" :=
  C7_resolver_amended.1 "Owner" ["Agent"] ["Agent"] (by decide)

/-- C9 counterexample: on a column where both interpretations parse
every value (a tie in the failure counts) the resolver still picks the
day-first interpretation, so the selected interpretation does not have
a strictly lower parse-failure count than the other, refuting the claim
as stated. -/
theorem C9_dayfirst_counterexample :
    ¬ ((parse_date_best (fun n : Nat => some n) (fun n : Nat => some (n + 1)) [0] =
          [0].map (fun n : Nat => some n)
        ∧ countNone ([0].map (fun n : Nat => some n)) <
            countNone ([0].map (fun n : Nat => some (n + 1))))
      ∨ (parse_date_best (fun n : Nat => some n) (fun n : Nat => some (n + 1)) [0] =
          [0].map (fun n : Nat => some (n + 1))
        ∧ countNone ([0].map (fun n : Nat => some (n + 1))) <
            countNone ([0].map (fun n : Nat => some n)))) := by
  decide

/-- C9 (amended): the temporal resolver parses the whole column under
both interpretations and selects one of the two as a single
column-level decision applied uniformly to every row; it selects the
day-first interpretation exactly when its parse-failure count is less
than or equal to the month-first count (ties go to day-first), and the
month-first interpretation when its failure count is strictly lower. -/
theorem C9_dayfirst_amended {α β : Type} (p1 p2 : α → Option β) (col : List α) :
    (parse_date_best p1 p2 col = col.map p1 ∨ parse_date_best p1 p2 col = col.map p2)
    ∧ (countNone (col.map p1) ≤ countNone (col.map p2) →
        parse_date_best p1 p2 col = col.map p1)
    ∧ (countNone (col.map p2) < countNone (col.map p1) →
        parse_date_best p1 p2 col = col.map p2) := by
  have e1 := countSome_add_countNone (col.map p1)
  have e2 := countSome_add_countNone (col.map p2)
  have l1 : (col.map p1).length = col.length := List.length_map _ _
  have l2 : (col.map p2).length = col.length := List.length_map _ _
  refine ⟨?_, ?_, ?_⟩
  · by_cases h : countSome (col.map p2) ≤ countSome (col.map p1)
    · left
      simp only [parse_date_best]
      rw [if_pos h]
    · right
      simp only [parse_date_best]
      rw [if_neg h]
  · intro h
    have hc : countSome (col.map p2) ≤ countSome (col.map p1) := by omega
    simp only [parse_date_best]
    rw [if_pos hc]
  · intro h
    have hc : ¬ countSome (col.map p2) ≤ countSome (col.map p1) := by omega
    simp only [parse_date_best]
    rw [if_neg hc]

/-- C9 witness: the amended theorem applied to a concrete tied column,
where the day-first result is returned. -/
theorem C9_dayfirst_witness :
    parse_date_best (fun n : Nat => some n) (fun n : Nat => some (n + 1)) [0] =
      [0].map (fun n : Nat => some n) :=
  (C9_dayfirst_amended (fun n : Nat => some n) (fun n : Nat => some (n + 1)) [0]).2.1
    (by decide)

/-- Record with no agent value (an unattributed call). -/
def recNoAgent : Rec :=
  { agent := none, country := none, callType := none, callStatus := none,
    durRaw := .missing, hour := none }

/-- Record whose agent is the selected but non-rostered name bob. -/
def recBob : Rec :=
  { agent := some "bob", country := none, callType := none, callStatus := none,
    durRaw := .missing, hour := none }

/-- C8: enabling the additive MT team flag never removes a record from
the team-filtered result (the unflagged result is a sublist of the
flagged one), every record the flag adds matches the flag roster, and
the all-agents base selection passes every record whatever the other
switches are. -/
theorem C8_additive_flag (baseAll im : Bool) (b2c mt : List (List Char)) (rows : List Rec) :
    List.Sublist (teamFilter baseAll false im b2c mt rows)
      (teamFilter baseAll true im b2c mt rows)
    ∧ (∀ r : Rec, r ∈ teamFilter baseAll true im b2c mt rows →
        r ∈ teamFilter baseAll false im b2c mt rows ∨ fuzzy_match_any r.agent mt = true)
    ∧ (∀ addMt im2 : Bool, teamFilter true addMt im2 b2c mt rows = rows) := by
  refine ⟨?_, ?_, ?_⟩
  · apply filter_sublist_mono
    intro r hr
    cases baseAll <;>
      simp only [teamMask, if_true, if_false, Bool.or_eq_true, Bool.and_eq_true,
        Bool.false_and, Bool.true_and, false_or, or_false] at hr ⊢ <;>
      tauto
  · intro r hr
    rcases List.mem_filter.mp hr with ⟨hmem, hmask⟩
    by_cases hmt : fuzzy_match_any r.agent mt = true
    · exact Or.inr hmt
    · left
      refine List.mem_filter.mpr ⟨hmem, ?_⟩
      have hmtf : fuzzy_match_any r.agent mt = false := by
        cases hcase : fuzzy_match_any r.agent mt
        · rfl
        · exact absurd hcase hmt
      cases baseAll <;>
        simp only [teamMask, if_true, if_false, Bool.or_eq_true, Bool.and_eq_true,
          Bool.false_and, Bool.true_and, false_or, or_false, hmtf] at hmask ⊢ <;>
        tauto
  · intro addMt im2
    simp [teamFilter, teamMask]

/-- C8 witness: an unattributed record passes the flagged restricted
filter via include_missing, and the theorem places it in the unflagged
result or among the MT matches. -/
theorem C8_additive_witness :
    recNoAgent ∈ teamFilter false false true B2C_TARGETS MTTEAM_TARGETS [recNoAgent]
    ∨ fuzzy_match_any recNoAgent.agent MTTEAM_TARGETS = true :=
  (C8_additive_flag false true B2C_TARGETS MTTEAM_TARGETS [recNoAgent]).2.1 recNoAgent
    (by decide)

/-- C5 counterexample: with include_missing on, a restricted team base
(roster alice) and an active agent selection containing bob, the record
whose agent is bob is selected yet dropped by the composed filter,
because the team restriction and the selection combine conjunctively;
this refutes the claim that every selected record is kept. -/
theorem C5_restricted_counterexample :
    (["bob"] : List String).contains "bob" = true
    ∧ agentPipeline false false true ["alice".toList] [] (some ["bob"]) [recBob] = [] := by
  exact ⟨by decide, by decide⟩

/-- C5 (amended): with include_missing on, a restricted team base and a
nonempty agent selection, the composed agent filter keeps exactly the
records whose agent is missing and the records whose agent both matches
the team roster and is selected; in particular every missing-agent
record is kept and every present agent that is neither selected nor
roster-matched is dropped. -/
theorem C5_restricted_amended (b2c : List (List Char)) (sel : List String)
    (rows : List Rec) (r : Rec) (hsel : sel ≠ []) :
    r ∈ agentPipeline false false true b2c [] (some sel) rows ↔
      r ∈ rows
      ∧ (r.agent = none
         ∨ ∃ v, r.agent = some v ∧ fuzzy_match_any r.agent b2c = true
             ∧ sel.contains v = true) := by
  have hlen : ¬ sel.length = 0 := by
    intro h
    exact hsel (List.length_eq_zero.mp h)
  simp only [agentPipeline, _apply_filter]
  rw [if_neg hlen]
  simp only [eq_self_iff_true, if_true]
  constructor
  · intro h
    rcases List.mem_filter.mp h with ⟨h1, hpred⟩
    rcases List.mem_filter.mp h1 with ⟨hmem, hmask⟩
    refine ⟨hmem, ?_⟩
    cases hag : r.agent with
    | none => exact Or.inl rfl
    | some v =>
      right
      refine ⟨v, rfl, ?_, ?_⟩
      · simp only [teamMask] at hmask
        rw [hag] at hmask
        simpa using hmask
      · rw [hag] at hpred
        simp only [strOfCell, Option.isNone_some, Bool.or_eq_true] at hpred
        rcases hpred with hpred | hpred
        · simpa using hpred
        · cases hpred
  · rintro ⟨hmem, hcond⟩
    apply List.mem_filter.mpr
    refine ⟨List.mem_filter.mpr ⟨hmem, ?_⟩, ?_⟩
    · rcases hcond with hnone | ⟨v, hag, hfuzzy, hsel2⟩
      · simp [teamMask, hnone]
      · rw [hag] at hfuzzy
        simp [teamMask, hag, hfuzzy]
    · rcases hcond with hnone | ⟨v, hag, hfuzzy, hsel2⟩
      · simp [hnone]
      · rw [hag]
        simpa [strOfCell] using hsel2

/-- C5 witness: the amended theorem applied to a concrete unattributed
record, which the composed filter keeps. -/
theorem C5_restricted_witness :
    recNoAgent ∈ agentPipeline false false true [] [] (some ["x"]) [recNoAgent] :=
  (C5_restricted_amended [] ["x"] [recNoAgent] recNoAgent (by decide)).mpr
    ⟨by decide, Or.inl rfl⟩

/-- C4 counterexample: for the name bart against the roster entry
ar xyzzzz, the source matcher fires because the roster token ar is a
substring of bart, while the claimed rule (the token must occur as a
whole token of the name) does not fire: no clause of the claimed
disjunction holds (the similarity ratio is 4/13, far below 0.85). -/
theorem C4_matcher_counterexample :
    is_member (some "bart") ["ar xyzzzz"] = true
    ∧ isMemberClaimed (some "bart") ["ar xyzzzz"] = false := by
  exact ⟨by decide, by decide⟩

/-- C4 (amended): is_member returns true iff the normalized name is
nonempty and some nonempty normalized roster entry satisfies one of:
entry is a substring of the name, name is a substring of the entry,
some whitespace token of the entry is a substring (not necessarily a
whole token) of the name, or the similarity ratio is at least 0.85;
an empty normalized name never matches, and the quoted examples hold. -/
theorem C4_matcher_amended :
    (∀ (name : Option String) (roster : List String),
        is_member name roster = true ↔
          norm_name name ≠ []
          ∧ ∃ t ∈ roster.map (fun r => norm_name (some r)),
              t ≠ []
              ∧ (containsL (norm_name name) t = true
                 ∨ containsL t (norm_name name) = true
                 ∨ (∃ tok ∈ (splitOnChar ' ' t).filter (fun x => x.length != 0),
                      containsL (norm_name name) tok = true)
                 ∨ fle ratio_cut (smRatio (norm_name name) t) = true))
    ∧ is_member (some "Ayushman Jetlearn") ["ayushman jetlearn"] = true
    ∧ is_member (some "Ayushman J") ["ayushman jetlearn"] = true
    ∧ (∀ roster : List String, is_member (some "") roster = false)
    ∧ (∀ roster : List String, is_member none roster = false) := by
  refine ⟨?_, by decide, by decide, fun roster => rfl, fun roster => rfl⟩
  intro name roster
  simp only [is_member, fuzzy_match_any]
  by_cases hn : (norm_name name).length = 0
  · rw [if_pos hn]
    constructor
    · intro h; cases h
    · rintro ⟨hne, -⟩
      exact absurd (List.length_eq_zero.mp hn) hne
  · rw [if_neg hn]
    rw [List.any_eq_true]
    constructor
    · rintro ⟨t, ht, hcond⟩
      have h0 : ¬ t.length = 0 := by
        intro h0
        rw [if_pos h0] at hcond
        cases hcond
      rw [if_neg h0] at hcond
      refine ⟨fun he => hn (by rw [he]; rfl), t, ht,
        fun he => h0 (by rw [he]; rfl), ?_⟩
      simp only [Bool.or_eq_true, List.any_eq_true] at hcond
      rcases hcond with ((h | h) | h) | h
      · exact Or.inl h
      · exact Or.inr (Or.inl h)
      · exact Or.inr (Or.inr (Or.inl h))
      · exact Or.inr (Or.inr (Or.inr h))
    · rintro ⟨hne, t, ht, htne, hcond⟩
      refine ⟨t, ht, ?_⟩
      have h0 : ¬ t.length = 0 := fun h => htne (List.length_eq_zero.mp h)
      rw [if_neg h0]
      simp only [Bool.or_eq_true, List.any_eq_true]
      rcases hcond with h | h | h | h
      · exact Or.inl (Or.inl (Or.inl h))
      · exact Or.inl (Or.inl (Or.inr h))
      · exact Or.inl (Or.inr h)
      · exact Or.inr h

/-- C6 counterexample: the three scenario records all lie in the
filtered set but carry no parsed local hour (the upload has no Time
column), so the attempts-by-hour view counts none of them: it does not
count every call of the filtered set. -/
theorem C6_attempts_counterexample :
    attemptsTotal scenarioRows = 0 ∧ scenarioRows.length = 3 := by
  exact ⟨by decide, rfl⟩

/-- C6 (amended): the attempts-by-hour view is computed on the date-
and categorical-filtered set before any duration threshold and counts
exactly the calls of that set that carry a parsed local hour; talktime
aggregates run on the threshold-filtered subset, which keeps a record
iff its duration is present and at least the threshold; and on the
three-record scenario with threshold 60 the agent aggregation yields
B: count 1, sum 120 and A: count 1, sum 60, the 30-second call of A
being excluded. -/
theorem C6_attempts_amended :
    (∀ rows : List Rec, attemptsTotal rows = (rows.filter (fun r => r.hour.isSome)).length)
    ∧ (∀ (t : Frac) (rows : List Rec) (r : Rec),
        r ∈ thresholdFilter t rows ↔
          r ∈ rows ∧ ∃ d, durationSec r = some d ∧ fle t d = true)
    ∧ agg_summary
        ((thresholdFilter (fofNat 60) scenarioRows).map (fun r => (r.agent, durationSec r))) =
        [{ key := some "B", count := 1, total := fofNat 120, mean := some (fofNat 120),
           median := some (fofNat 120) },
         { key := some "A", count := 1, total := fofNat 60, mean := some (fofNat 60),
           median := some (fofNat 60) }] := by
  refine ⟨?_, ?_, by decide⟩
  · intro rows
    simp only [attemptsTotal, attemptsByHour]
    rw [List.map_map]
    have hfun :
        ((fun x : Nat × Nat => x.2) ∘ fun h =>
          (h, (rows.filterMap (fun r => r.hour)).countP (fun x => decide (x = h)))) =
        fun h => (rows.filterMap (fun r => r.hour)).countP (fun x => decide (x = h)) := rfl
    rw [hfun]
    rw [sum_countP_keys _ (List.nodup_dedup _) _ (fun a ha => List.mem_dedup.mpr ha)]
    exact length_filterMap_eq _ rows
  · intro t rows r
    unfold thresholdFilter
    rw [List.mem_filter]
    constructor
    · rintro ⟨hmem, hc⟩
      refine ⟨hmem, ?_⟩
      cases hd : durationSec r with
      | none =>
        rw [hd] at hc
        cases hc
      | some d =>
        rw [hd] at hc
        exact ⟨d, rfl, hc⟩
    · rintro ⟨hmem, d, hd, hle⟩
      refine ⟨hmem, ?_⟩
      rw [hd]
      exact hle

theorem filterMap_id_map_snd {κ : Type} (l : List (κ × Option Frac)) :
    (l.map Prod.snd).filterMap id = l.filterMap Prod.snd := by
  rw [List.filterMap_map]
  rfl

theorem medianF_eq_none_iff (l : List Frac) : medianF l = none ↔ l = [] := by
  simp only [medianF]
  have hlen : (sortByB fle l).length = l.length := (sortByB_perm fle l).length_eq
  by_cases h : (sortByB fle l).length = 0
  · rw [if_pos h]
    have hl : l = [] := List.length_eq_zero.mp (hlen ▸ h)
    simp [hl]
  · rw [if_neg h]
    constructor
    · intro hc
      by_cases hp : (sortByB fle l).length % 2 = 1
      · rw [if_pos hp] at hc
        cases hc
      · rw [if_neg hp] at hc
        cases hc
    · intro hl
      subst hl
      exact absurd rfl h

theorem aggBy_map_key {κ : Type} [DecidableEq κ] (rows : List (κ × Option Frac)) :
    (aggBy rows).map (fun g => g.key) = (rows.map Prod.fst).dedup := by
  simp only [aggBy]
  rw [List.map_map]
  have hfun : ((fun g : AggRow κ => g.key) ∘ fun k =>
      groupStats k ((rows.filter (fun p => decide (p.1 = k))).map Prod.snd)) = id := rfl
  rw [hfun, List.map_id]

/-- C1 (amended): agg_summary produces exactly one output row per
distinct grouping key present in the input, a missing key forming its
own group and never being dropped; within each group the reported sum,
mean and median aggregate the non-missing durations (mean and median of
an all-missing group are missing), while the reported count counts the
rows of the group with a non-missing duration, not all rows; hence the
per-group counts sum to the number of input rows with a non-missing
duration. -/
theorem C1_agg_amended {κ : Type} [DecidableEq κ] (rows : List (κ × Option Frac)) :
    ((agg_summary rows).map (fun g => g.key)).Nodup
    ∧ (∀ k : κ, k ∈ (agg_summary rows).map (fun g => g.key) ↔ k ∈ rows.map Prod.fst)
    ∧ (∀ g, g ∈ agg_summary rows →
        g.count = ((rows.filter (fun p => decide (p.1 = g.key))).filterMap Prod.snd).length
        ∧ g.total = fsum ((rows.filter (fun p => decide (p.1 = g.key))).filterMap Prod.snd)
        ∧ (g.mean = none ↔
            (rows.filter (fun p => decide (p.1 = g.key))).filterMap Prod.snd = [])
        ∧ (g.median = none ↔
            (rows.filter (fun p => decide (p.1 = g.key))).filterMap Prod.snd = []))
    ∧ ((agg_summary rows).map (fun g => g.count)).sum = (rows.filterMap Prod.snd).length := by
  have hperm : List.Perm (agg_summary rows) (aggBy rows) := sortByB_perm _ _
  have hkeys : List.Perm ((agg_summary rows).map (fun g => g.key))
      ((rows.map Prod.fst).dedup) := by
    rw [← aggBy_map_key rows]
    exact hperm.map _
  refine ⟨?_, ?_, ?_, ?_⟩
  · exact hkeys.nodup_iff.mpr (List.nodup_dedup _)
  · intro k
    rw [hkeys.mem_iff]
    exact List.mem_dedup
  · intro g hg
    have hg2 : g ∈ aggBy rows := hperm.mem_iff.mp hg
    simp only [aggBy] at hg2
    rcases List.mem_map.mp hg2 with ⟨k, hk, hgk⟩
    subst hgk
    simp only [groupStats, filterMap_id_map_snd]
    refine ⟨trivial, trivial, ?_, ?_⟩
    · by_cases h0 : (rows.filter (fun p => decide (p.1 = k))).filterMap Prod.snd = []
      · simp [h0]
      · have hne : ¬ ((rows.filter (fun p => decide (p.1 = k))).filterMap Prod.snd).length = 0 :=
          fun h => h0 (List.length_eq_zero.mp h)
        rw [if_neg hne]
        simp [h0]
    · exact medianF_eq_none_iff _
  · have hsum : ((agg_summary rows).map (fun g => g.count)).sum =
        ((aggBy rows).map (fun g => g.count)).sum := (hperm.map _).sum_eq
    rw [hsum]
    simp only [aggBy]
    rw [List.map_map]
    have hfun2 : ((fun g : AggRow κ => g.count) ∘ fun k =>
        groupStats k ((rows.filter (fun p => decide (p.1 = k))).map Prod.snd)) =
        fun k => ((rows.filter (fun p => decide (p.1 = k))).filterMap Prod.snd).length := by
      funext k
      show ((rows.filter (fun p => decide (p.1 = k))).map Prod.snd |>.filterMap id).length = _
      rw [filterMap_id_map_snd]
    rw [hfun2]
    have hterm : ∀ k : κ,
        ((rows.filter (fun p => decide (p.1 = k))).filterMap Prod.snd).length =
        ((rows.filter (fun p => p.2.isSome)).map Prod.fst).countP (fun x => decide (x = k)) := by
      intro k
      rw [length_filterMap_eq, List.filter_filter, List.countP_map,
        List.countP_eq_length_filter, List.filter_filter]
      have hcomm : (fun a : κ × Option Frac => a.2.isSome && decide (a.1 = k)) =
          fun a : κ × Option Frac => decide (a.1 = k) && a.2.isSome := by
        funext a
        exact Bool.and_comm _ _
      rw [hcomm]
      rfl
    have hrw : ((rows.map Prod.fst).dedup.map
        (fun k => ((rows.filter (fun p => decide (p.1 = k))).filterMap Prod.snd).length)) =
        ((rows.map Prod.fst).dedup.map (fun k =>
          ((rows.filter (fun p => p.2.isSome)).map Prod.fst).countP (fun x => decide (x = k)))) :=
      List.map_congr_left (fun k _ => hterm k)
    rw [hrw]
    rw [sum_countP_keys _ (List.nodup_dedup _) _ (fun a ha => by
      rcases List.mem_map.mp ha with ⟨p, hp, rfl⟩
      exact List.mem_dedup.mpr (List.mem_map.mpr ⟨p, (List.mem_filter.mp hp).1, rfl⟩))]
    rw [List.length_map]
    exact (length_filterMap_eq Prod.snd rows).symm

/-- C1 counterexample: a single input record whose duration is missing
forms one group whose reported count is 0 (pandas count skips missing
values), so the per-group counts sum to 0 while the input has 1 row,
refuting the claim that the counts always sum to the total number of
input rows. -/
theorem C1_agg_counterexample :
    ((agg_summary [((some "A" : Option String), (none : Option Frac))]).map
      (fun g => g.count)).sum = 0
    ∧ ([((some "A" : Option String), (none : Option Frac))]
        : List (Option String × Option Frac)).length = 1 := by
  exact ⟨by decide, rfl⟩

/-- C1 witness: the amended theorem evaluated on a concrete group of
two rows, one with a missing duration: the reported count is the number
of rows of the group carrying a duration. -/
theorem C1_agg_witness :
    ({ key := some "A", count := 1, total := fofNat 60, mean := some (fofNat 60),
       median := some (fofNat 60) } : AggRow (Option String)).count =
      (([((some "A" : Option String), some (fofNat 60)),
         ((some "A" : Option String), (none : Option Frac))].filter
          (fun p => decide (p.1 =
            ({ key := some "A", count := 1, total := fofNat 60, mean := some (fofNat 60),
               median := some (fofNat 60) } : AggRow (Option String)).key))).filterMap
        Prod.snd).length :=
  ((C1_agg_amended [((some "A" : Option String), some (fofNat 60)),
      ((some "A" : Option String), (none : Option Frac))]).2.2.1
    { key := some "A", count := 1, total := fofNat 60, mean := some (fofNat 60),
      median := some (fofNat 60) } (by decide)).1

end TalkTime
